import Mathlib

/-
Verification of the batch migration core of the zoom-recording-downloader
repository: the progress ledger (src/progress_log.py), the recording matcher
(find_matching_recording in src/zoom_recording_downloader.py), the main
orchestration loop (main in src/zoom_recording_downloader.py) and the
verification pass (src/verify_migration.py), shallowly embedded in Lean.

Modelling conventions:
- Python dicts holding fileId -> size-in-GB become association lists
  `List (String × ℚ)` with Python-dict assignment semantics (`dictInsert`);
  float sizes are modelled as exact rationals.
- UTC timestamps become integers counting seconds; a calendar date is the
  floor-division of a timestamp by 86400, and the matcher's 5-minute
  tolerance is 300 seconds.
- Network effects (download to scratch, upload to Drive) are oracles
  `String → Bool × Bool` giving per-file (download succeeded, upload
  succeeded); ledger persistence and the budget halt are recorded in an
  explicit event trace.
-/

set_option maxHeartbeats 1000000

namespace ZoomMigration

/-! ## Association lists with Python-dict semantics -/

/-- Python dict assignment `m[k] = v`: replace the value at an existing key in
place, otherwise append the new binding at the end (insertion order). -/
def dictInsert : List (String × ℚ) → String → ℚ → List (String × ℚ)
  | [], k, v => [(k, v)]
  | (k0, v0) :: rest, k, v =>
    if k0 = k then (k0, v) :: rest else (k0, v0) :: dictInsert rest k v

/-- Sum of the values of a mapping, as in Python `sum(d.values())`. -/
def sumValues (m : List (String × ℚ)) : ℚ := (m.map Prod.snd).sum

/-- The keys of a mapping, as in Python `d.keys()`. -/
def keysOf (m : List (String × ℚ)) : List String := m.map Prod.fst

/-! ## Progress ledger (src/progress_log.py, class ProgressLog) -/

/-- The ledger state `ProgressLog.log_data`: the all-time mapping
`total_completed_recordings`, the same-day mapping
`daily_completed_recordings`, the last-save timestamp `last_run_utc`
(seconds, UTC), the run counter and the derived stored all-time total. -/
structure ProgressLog where
  last_run_utc : Option ℤ
  total_completed_recordings : List (String × ℚ)
  daily_completed_recordings : List (String × ℚ)
  run_counter : ℕ
  total_completed_gb : ℚ
  deriving DecidableEq, Repr

/-- The fresh empty log built by `ProgressLog._create_new_log`. -/
def create_new_log : ProgressLog :=
  { last_run_utc := none
    total_completed_recordings := []
    daily_completed_recordings := []
    run_counter := 0
    total_completed_gb := 0 }

/-- Model of `ProgressLog.save`: stamp `last_run_utc` with the current time and
recompute the stored all-time total from the all-time mapping, then persist
(persistence itself is tracked by the orchestrator's event trace). -/
def save (now : ℤ) (st : ProgressLog) : ProgressLog :=
  { st with
    last_run_utc := some now
    total_completed_gb := sumValues st.total_completed_recordings }

/-- Model of `ProgressLog.is_completed`: membership of the file id in the all-time
mapping (`recording_file_id in total_completed_recordings`). -/
def is_completed (f : String) (st : ProgressLog) : Bool :=
  st.total_completed_recordings.any fun p => p.1 == f

/-- Model of `ProgressLog.log_completed`: no-op when the file is already complete,
otherwise insert the (fileId, sizeGb) binding into both mappings and save. -/
def log_completed (f : String) (sizeGb : ℚ) (now : ℤ) (st : ProgressLog) :
    ProgressLog :=
  if is_completed f st then st
  else
    save now
      { st with
        total_completed_recordings :=
          dictInsert st.total_completed_recordings f sizeGb
        daily_completed_recordings :=
          dictInsert st.daily_completed_recordings f sizeGb }

/-- Model of `ProgressLog.get_batch_size`: sum of the same-day mapping's values. -/
def get_batch_size (st : ProgressLog) : ℚ :=
  sumValues st.daily_completed_recordings

/-- Seconds in a day, for turning a timestamp into a calendar date. -/
def secondsPerDay : ℤ := 86400

/-- The UTC calendar date of a timestamp, as an integer day number
(`datetime.fromisoformat(ts).date()`). -/
def dateOf (t : ℤ) : ℤ := Int.fdiv t secondsPerDay

/-- Model of `ProgressLog.get_last_run_date`: date of the last save, none if the
ledger has never been saved. -/
def get_last_run_date (st : ProgressLog) : Option ℤ :=
  st.last_run_utc.map dateOf

/-- Model of `ProgressLog.reset_batch_size`: clear the same-day mapping and save. -/
def reset_batch_size (now : ℤ) (st : ProgressLog) : ProgressLog :=
  save now { st with daily_completed_recordings := [] }

/-- Ledger states reachable from a fresh empty log by the operations the
program performs: `log_completed`, `reset_batch_size`, `save`, and the
run-counter increment done by `ProgressLog.__init__`. -/
inductive Reachable : ProgressLog → Prop where
  | empty : Reachable create_new_log
  | log (f : String) (s : ℚ) (now : ℤ) (st : ProgressLog) :
      Reachable st → Reachable (log_completed f s now st)
  | reset (now : ℤ) (st : ProgressLog) :
      Reachable st → Reachable (reset_batch_size now st)
  | dosave (now : ℤ) (st : ProgressLog) :
      Reachable st → Reachable (save now st)
  | bump (st : ProgressLog) :
      Reachable st → Reachable { st with run_counter := st.run_counter + 1 }

/-! ## Recording matcher (find_matching_recording) -/

/-- One individual recording file of a provider session; only the identifier
and the byte size matter to the claims. -/
structure RecordingFile where
  id : String
  file_size : ℤ
  deriving DecidableEq, Repr

/-- One provider recording session as the Zoom API reports it. -/
structure Recording where
  topic : String
  start_time : ℤ
  recording_files : List RecordingFile
  deriving DecidableEq, Repr

/-- A manifest row, as consumed by the matcher: the topic may be absent and
the UTC start time may have failed to parse (both map to Python None/NaT). -/
structure CsvRow where
  topic : Option String
  start_time_utc : Option ℤ
  deriving DecidableEq, Repr

/-- The single-quote character, written by code point to keep source
character literals simple. -/
def singleQuote : Char := Char.ofNat 39

/-- Topic normalization in find_matching_recording: when the CSV topic
starts with a single quote immediately followed by a dash, drop the leading
quote (`csv_topic[1:]`); a missing topic stays missing. -/
def normalize_topic (t : Option String) : Option String :=
  t.map fun s =>
    match s.data with
    | c1 :: c2 :: _ =>
      if c1 = singleQuote ∧ c2 = '-' then String.mk (s.data.drop 1) else s
    | _ => s

/-- The matcher's time tolerance, `timedelta(minutes=5)`, in seconds. -/
def fiveMinutes : ℤ := 300

/-- The candidate loop of find_matching_recording: return the first
candidate whose topic equals the (already normalized) CSV topic and whose
start time is strictly within the 5-minute tolerance. -/
def findLoop (topic : Option String) (t : ℤ) :
    List Recording → Option Recording
  | [] => none
  | r :: rest =>
    if some r.topic = topic ∧ |t - r.start_time| < fiveMinutes then some r
    else findLoop topic t rest

/-- find_matching_recording: none when the row's UTC start time is missing
(`pd.isna`), otherwise normalize the topic and scan the candidates. -/
def find_matching_recording (row : CsvRow) (cands : List Recording) :
    Option Recording :=
  match row.start_time_utc with
  | none => none
  | some t => findLoop (normalize_topic row.topic) t cands

/-- Matching condition transcribed from the claim's words: the candidate's
topic equals the row's normalized topic and the UTC start times differ by
strictly less than 5 minutes. Used to state the refinement of the loop. -/
def claimMatches (row : CsvRow) (t : ℤ) (r : Recording) : Bool :=
  (normalize_topic row.topic == some r.topic) &&
    decide (|t - r.start_time| < fiveMinutes)

/-! ## Migration orchestrator (main in src/zoom_recording_downloader.py)

The per-file transfer chain is driven by an oracle
`transfer : String → Bool × Bool` giving, for a file id, whether the
download to local scratch succeeds and whether the Google Drive upload
succeeds.  The model covers the non-dry-run path with Drive enabled, which
is the only way the per-file loop is reached in main.  Observable effects
are collected in an event trace. -/

/-- Observable orchestrator events: a download attempt, an upload attempt
carrying its outcome, a write-through ledger persist, and the budget halt
(the `SystemExit("Batch limit reached")` control signal). -/
inductive Event where
  | download (id : String)
  | upload (id : String) (ok : Bool)
  | save
  | halt
  deriving DecidableEq, Repr

/-- Bytes to gigabytes: `file_size_bytes / (1024 * 1024 * 1024)`. -/
def bytesToGb (b : ℤ) : ℚ := (b : ℚ) / (1024 * 1024 * 1024)

/-- Budget admission test, inlined in main as
`progress.get_batch_size() + file_size_gb > args.batch_size_gb`. -/
def would_exceed (st : ProgressLog) (candidateGb limitGb : ℚ) : Bool :=
  decide (get_batch_size st + candidateGb > limitGb)

/-- One iteration of the per-file loop in main: skip files already complete,
re-find the file info by id in the recording's file list, convert the size
to GB, halt when the admission test fails, otherwise download; on download
success upload (outcome only affects local cleanup) and log the file as
complete (which write-through persists the ledger).  Returns the new ledger,
the emitted events, and whether the budget halt was raised. -/
def processFile (limitGb : ℚ) (now : ℤ) (transfer : String → Bool × Bool)
    (st : ProgressLog) (rec : Recording) (f : RecordingFile) :
    ProgressLog × List Event × Bool :=
  if is_completed f.id st then (st, [], false)
  else
    match rec.recording_files.find? (fun g => g.id == f.id) with
    | none => (st, [], false)
    | some fi =>
      if would_exceed st (bytesToGb fi.file_size) limitGb then
        (st, [Event.halt], true)
      else if (transfer f.id).1 then
        (log_completed f.id (bytesToGb fi.file_size) now st,
          [Event.download f.id, Event.upload f.id (transfer f.id).2,
            Event.save],
          false)
      else (st, [Event.download f.id], false)

/-- The per-file loop over a recording's files; the `SystemExit` raised on
budget exhaustion stops the loop at once. -/
def processFiles (limitGb : ℚ) (now : ℤ) (transfer : String → Bool × Bool)
    (rec : Recording) :
    ProgressLog → List RecordingFile → ProgressLog × List Event × Bool
  | st, [] => (st, [], false)
  | st, f :: fs =>
    match processFile limitGb now transfer st rec f with
    | (st1, e1, true) => (st1, e1, true)
    | (st1, e1, false) =>
      match processFiles limitGb now transfer rec st1 fs with
      | (st2, e2, h) => (st2, e1 ++ e2, h)

/-- One iteration of the row loop in main: match the row against its
candidate recordings; no match skips the row, a match with no files raises
in get_downloads and is caught by the row-level handler (skip), otherwise
the file loop runs. -/
def processRow (limitGb : ℚ) (now : ℤ) (transfer : String → Bool × Bool)
    (st : ProgressLog) (p : CsvRow × List Recording) :
    ProgressLog × List Event × Bool :=
  match find_matching_recording p.1 p.2 with
  | none => (st, [], false)
  | some rec =>
    if rec.recording_files.isEmpty then (st, [], false)
    else processFiles limitGb now transfer rec st rec.recording_files

/-- The row loop over the manifest; a budget halt propagates out of the loop
immediately, skipping every remaining row. -/
def processRows (limitGb : ℚ) (now : ℤ) (transfer : String → Bool × Bool) :
    ProgressLog → List (CsvRow × List Recording) →
      ProgressLog × List Event × Bool
  | st, [] => (st, [], false)
  | st, p :: ps =>
    match processRow limitGb now transfer st p with
    | (st1, e1, true) => (st1, e1, true)
    | (st1, e1, false) =>
      match processRows limitGb now transfer st1 ps with
      | (st2, e2, h) => (st2, e1 ++ e2, h)

/-- The startup day-rollover check in main: when the last run's date exists
and is strictly earlier than today (UTC), clear the same-day mapping
(reset_batch_size, which persists). -/
def startupRollover (today now : ℤ) (st : ProgressLog) :
    ProgressLog × List Event :=
  match get_last_run_date st with
  | some d =>
    if d < today then (reset_batch_size now st, [Event.save]) else (st, [])
  | none => (st, [])

/-- The whole run of main after setup: day-rollover check, the row loop, and
the final save in the `finally` block, which runs on the normal path and on
the budget-halt path alike. -/
def mainRun (today now : ℤ) (limitGb : ℚ)
    (transfer : String → Bool × Bool) (st : ProgressLog)
    (rows : List (CsvRow × List Recording)) : ProgressLog × List Event :=
  let s0 := startupRollover today now st
  let r := processRows limitGb now transfer s0.1 rows
  (save now r.1, s0.2 ++ r.2.1 ++ [Event.save])

/-- Boolean form of "the ledger already marks every file enumerated by the
manifest complete": for every row whose candidates the matcher resolves,
every file of the matched recording is complete. -/
def enumerated_complete (st : ProgressLog)
    (rows : List (CsvRow × List Recording)) : Bool :=
  rows.all fun p =>
    match find_matching_recording p.1 p.2 with
    | none => true
    | some rec => rec.recording_files.all fun f => is_completed f.id st

/-! ## Verification pass (src/verify_migration.py) -/

/-- The per-row classification statuses of the verification report, plus an
error tag carrying the exception detail. -/
inductive VerificationStatus where
  | COMPLETE
  | INCOMPLETE
  | NO_FILES_ON_ZOOM
  | NO_MATCH_ON_ZOOM
  | ERROR (detail : String)
  deriving DecidableEq, Repr

/-- One row of the verification loop in verify_migration.main.  The input is
the outcome of matching the row (an exception anywhere in the row's
processing is the `.error` case, as in the row-level try/except);
`found` abstracts `drive_service.find_file` on the file's expected folder
path and name.  Returns the status and the reported
(zoom_file_count, drive_file_count) pair, which the error path sets to -1. -/
def verify_row (result : Except String (Option Recording))
    (found : RecordingFile → Bool) : VerificationStatus × ℤ × ℤ :=
  match result with
  | .error e => (.ERROR e, -1, -1)
  | .ok none => (.NO_MATCH_ON_ZOOM, 0, 0)
  | .ok (some rec) =>
    let zc := rec.recording_files.length
    let dc := rec.recording_files.countP fun f => found f
    if zc = 0 then (.NO_FILES_ON_ZOOM, (zc : ℤ), (dc : ℤ))
    else if zc = dc then (.COMPLETE, (zc : ℤ), (dc : ℤ))
    else (.INCOMPLETE, (zc : ℤ), (dc : ℤ))

/-! ## Concrete instances used by the claims and their witnesses -/

/-- A transfer oracle on which every download and every upload succeeds. -/
def alwaysOk : String → Bool × Bool := fun _ => (true, true)

/-- A transfer oracle on which the download succeeds but the Google Drive
upload fails (upload_file returns False). -/
def downloadOkUploadFails : String → Bool × Bool := fun _ => (true, false)

/-- A 1 GB recording file. -/
def oneGbFile : RecordingFile := { id := "f1", file_size := 1073741824 }

/-- A recording session holding the single 1 GB file. -/
def oneFileRecording : Recording :=
  { topic := "T", start_time := 0, recording_files := [oneGbFile] }

/-- A manifest row that matches `oneFileRecording` exactly. -/
def rowForOneFile : CsvRow := { topic := some "T", start_time_utc := some 0 }

/-- A ledger whose same-day mapping already sums to 499 GB. -/
def ledger499 : ProgressLog :=
  { create_new_log with daily_completed_recordings := [("d", 499)] }

/-- The weekly-sync manifest topic of the spec's matcher example, carrying
the leading-quote export artifact. -/
def weeklyTopicRaw : String := String.mk (singleQuote :: "-Weekly Sync".data)

/-- The matcher example row: raw topic with the quote artifact, start time
at second 0. -/
def rowWeekly : CsvRow :=
  { topic := some weeklyTopicRaw, start_time_utc := some 0 }

/-- A candidate recording 3 minutes away from the row's start time. -/
def candNear : Recording :=
  { topic := "-Weekly Sync", start_time := 180, recording_files := [] }

/-- A candidate recording 10 minutes away from the row's start time. -/
def candFar : Recording :=
  { topic := "-Weekly Sync", start_time := 600, recording_files := [] }

/-- A manifest row whose UTC start time failed to parse (NaT). -/
def rowNoTime : CsvRow :=
  { topic := some "-Weekly Sync", start_time_utc := none }

/-- A candidate whose topic equals `rowNoTime`'s topic exactly. -/
def candSameTopic : Recording :=
  { topic := "-Weekly Sync", start_time := 0, recording_files := [] }

/-- A 2 GB recording file. -/
def twoGbFile : RecordingFile := { id := "g", file_size := 2147483648 }

/-- A recording session holding the single 2 GB file. -/
def twoGbRecording : Recording :=
  { topic := "T", start_time := 0, recording_files := [twoGbFile] }

/-- A ledger that already marks the file "f1" complete, last saved at
second 0 of day 0. -/
def ledgerOneDone : ProgressLog :=
  { last_run_utc := some 0
    total_completed_recordings := [("f1", 1)]
    daily_completed_recordings := [("f1", 1)]
    run_counter := 1
    total_completed_gb := 1 }

/-! ## Basic lemmas about the association-list operations -/

theorem keysOf_cons (p : String × ℚ) (m : List (String × ℚ)) :
    keysOf (p :: m) = p.1 :: keysOf m := rfl

theorem sumValues_cons (p : String × ℚ) (m : List (String × ℚ)) :
    sumValues (p :: m) = p.2 + sumValues m := by
  simp [sumValues]

theorem mem_keysOf_dictInsert (m : List (String × ℚ)) (k : String) (v : ℚ)
    (x : String) : x ∈ keysOf (dictInsert m k v) ↔ x ∈ keysOf m ∨ x = k := by
  induction m with
  | nil => simp [dictInsert, keysOf]
  | cons p rest ih =>
    obtain ⟨k0, v0⟩ := p
    by_cases h : k0 = k
    · subst h
      simp only [dictInsert, if_pos, keysOf_cons, List.mem_cons]
      tauto
    · simp only [dictInsert, if_neg h, keysOf_cons, List.mem_cons, ih]
      tauto

theorem sumValues_dictInsert_of_not_mem (m : List (String × ℚ)) (k : String)
    (v : ℚ) (h : k ∉ keysOf m) :
    sumValues (dictInsert m k v) = sumValues m + v := by
  induction m with
  | nil => simp [dictInsert, sumValues]
  | cons p rest ih =>
    obtain ⟨k0, v0⟩ := p
    have hk0 : ¬ k0 = k := by
      intro he
      exact h (by simp [keysOf_cons, he])
    have hrest : k ∉ keysOf rest := by
      intro hm
      exact h (by simp [keysOf_cons, hm])
    simp only [dictInsert, if_neg hk0, sumValues_cons, ih hrest]
    ring

theorem is_completed_iff (f : String) (st : ProgressLog) :
    is_completed f st = true ↔ f ∈ keysOf st.total_completed_recordings := by
  simp only [is_completed, List.any_eq_true, beq_iff_eq, keysOf, List.mem_map]

theorem save_total (now : ℤ) (st : ProgressLog) :
    (save now st).total_completed_recordings = st.total_completed_recordings :=
  rfl

theorem save_daily (now : ℤ) (st : ProgressLog) :
    (save now st).daily_completed_recordings = st.daily_completed_recordings :=
  rfl

theorem log_completed_of_completed (f : String) (s : ℚ) (now : ℤ)
    (st : ProgressLog) (h : is_completed f st = true) :
    log_completed f s now st = st := by
  simp [log_completed, h]

theorem total_log_completed_of_not (f : String) (s : ℚ) (now : ℤ)
    (st : ProgressLog) (h : is_completed f st = false) :
    (log_completed f s now st).total_completed_recordings
      = dictInsert st.total_completed_recordings f s := by
  simp [log_completed, h, save]

theorem daily_log_completed_of_not (f : String) (s : ℚ) (now : ℤ)
    (st : ProgressLog) (h : is_completed f st = false) :
    (log_completed f s now st).daily_completed_recordings
      = dictInsert st.daily_completed_recordings f s := by
  simp [log_completed, h, save]

theorem is_completed_log_completed_self (f : String) (s : ℚ) (now : ℤ)
    (st : ProgressLog) :
    is_completed f (log_completed f s now st) = true := by
  by_cases h : is_completed f st
  · rw [log_completed_of_completed f s now st h]
    exact h
  · rw [is_completed_iff, total_log_completed_of_not f s now st
      (by simpa using h), mem_keysOf_dictInsert]
    exact Or.inr rfl

theorem foldl_log_completed_of_completed (f : String) (st1 : ProgressLog)
    (h : is_completed f st1 = true) (args : List (ℚ × ℤ)) :
    args.foldl (fun acc a => log_completed f a.1 a.2 acc) st1 = st1 := by
  induction args with
  | nil => rfl
  | cons a as ih =>
    rw [List.foldl_cons, log_completed_of_completed f a.1 a.2 st1 h]
    exact ih

/-! ## Claim theorems -/

/-- Claim C2: after `log_completed f s` on a ledger where f is not yet
complete, followed by any number of further `log_completed` calls with the
same f (arbitrary sizes and timestamps), `is_completed f` is true, the
repeat calls are exact no-ops on the state, and the all-time total has
changed by exactly s once. -/
theorem recordComplete_idempotent (st : ProgressLog) (f : String) (s : ℚ)
    (now : ℤ) (h : is_completed f st = false) (args : List (ℚ × ℤ)) :
    is_completed f (log_completed f s now st) = true ∧
    args.foldl (fun acc a => log_completed f a.1 a.2 acc)
        (log_completed f s now st) = log_completed f s now st ∧
    sumValues (args.foldl (fun acc a => log_completed f a.1 a.2 acc)
          (log_completed f s now st)).total_completed_recordings
      = sumValues st.total_completed_recordings + s := by
  have h1 := is_completed_log_completed_self f s now st
  have h2 := foldl_log_completed_of_completed f _ h1 args
  refine ⟨h1, h2, ?_⟩
  rw [h2, total_log_completed_of_not f s now st h]
  refine sumValues_dictInsert_of_not_mem _ f s fun hm => ?_
  exact absurd (is_completed_iff f st |>.mpr hm) (by simp [h])

/-- Witness for C2: the empty ledger, file "a" of size 1, and two further
calls with the same file id and different sizes. -/
theorem recordComplete_idempotent_witness :
    is_completed "a" create_new_log = false ∧
    (is_completed "a" (log_completed "a" 1 0 create_new_log) = true ∧
      [((5 : ℚ), (7 : ℤ)), (9, 9)].foldl
          (fun acc a => log_completed "a" a.1 a.2 acc)
          (log_completed "a" 1 0 create_new_log)
        = log_completed "a" 1 0 create_new_log ∧
      sumValues ([((5 : ℚ), (7 : ℤ)), (9, 9)].foldl
            (fun acc a => log_completed "a" a.1 a.2 acc)
            (log_completed "a" 1 0 create_new_log)).total_completed_recordings
        = sumValues create_new_log.total_completed_recordings + 1) :=
  ⟨by decide, recordComplete_idempotent create_new_log "a" 1 0 (by decide) _⟩

/-- Claim C9: on every ledger reachable from the empty ledger by the
program's operations, the same-day mapping's keys are a subset of the
all-time mapping's keys; moreover `is_completed` depends only on the
all-time mapping (never on the same-day mapping), and equals membership in
the all-time mapping. -/
theorem ledger_daily_subset_invariant :
    (∀ st : ProgressLog, Reachable st →
      ∀ k, k ∈ keysOf st.daily_completed_recordings →
        k ∈ keysOf st.total_completed_recordings) ∧
    (∀ (st1 st2 : ProgressLog) (f : String),
      st1.total_completed_recordings = st2.total_completed_recordings →
      is_completed f st1 = is_completed f st2) ∧
    (∀ (st : ProgressLog) (f : String),
      is_completed f st = true ↔
        f ∈ keysOf st.total_completed_recordings) := by
  refine ⟨?_, ?_, fun st f => is_completed_iff f st⟩
  · intro st h
    induction h with
    | empty =>
      intro k hk
      simp [create_new_log, keysOf] at hk
    | log f s now st hst ih =>
      intro k hk
      by_cases hc : is_completed f st
      · rw [log_completed_of_completed f s now st hc] at hk ⊢
        exact ih k hk
      · have hc' : is_completed f st = false := by simpa using hc
        rw [daily_log_completed_of_not f s now st hc',
          mem_keysOf_dictInsert] at hk
        rw [total_log_completed_of_not f s now st hc',
          mem_keysOf_dictInsert]
        rcases hk with hk | hk
        · exact Or.inl (ih k hk)
        · exact Or.inr hk
    | reset now st hst ih =>
      intro k hk
      simp [reset_batch_size, save, keysOf] at hk
    | dosave now st hst ih =>
      intro k hk
      rw [save_daily] at hk
      rw [save_total]
      exact ih k hk
    | bump st hst ih =>
      intro k hk
      exact ih k hk
  · intro st1 st2 f h
    simp [is_completed, h]

/-- Witness for C9: the reachable ledger obtained by completing file "a"
on the empty ledger; "a" is a key of the same-day mapping and of the
all-time mapping. -/
theorem ledger_daily_subset_invariant_witness :
    "a" ∈ keysOf
        (log_completed "a" 1 0 create_new_log).daily_completed_recordings ∧
    "a" ∈ keysOf
        (log_completed "a" 1 0 create_new_log).total_completed_recordings :=
  ⟨by decide, ledger_daily_subset_invariant.1 _
    (Reachable.log "a" 1 0 create_new_log Reachable.empty) "a" (by decide)⟩

theorem daily_keys_log_completed (k f : String) (s : ℚ) (now : ℤ)
    (st : ProgressLog) (h : k ∈ keysOf st.daily_completed_recordings) :
    k ∈ keysOf (log_completed f s now st).daily_completed_recordings := by
  by_cases hc : is_completed f st
  · rw [log_completed_of_completed f s now st hc]
    exact h
  · rw [daily_log_completed_of_not f s now st (by simpa using hc),
      mem_keysOf_dictInsert]
    exact Or.inl h

theorem daily_keys_processFile (L : ℚ) (now : ℤ)
    (tr : String → Bool × Bool) (st : ProgressLog) (rec : Recording)
    (f : RecordingFile) (k : String)
    (h : k ∈ keysOf st.daily_completed_recordings) :
    k ∈ keysOf
      (processFile L now tr st rec f).1.daily_completed_recordings := by
  unfold processFile
  repeat' split
  all_goals
    first
      | exact daily_keys_log_completed k f.id _ now st h
      | exact h

theorem daily_keys_processFiles (L : ℚ) (now : ℤ)
    (tr : String → Bool × Bool) (rec : Recording)
    (fs : List RecordingFile) :
    ∀ (st : ProgressLog) (k : String),
      k ∈ keysOf st.daily_completed_recordings →
      k ∈ keysOf
        (processFiles L now tr rec st fs).1.daily_completed_recordings := by
  induction fs with
  | nil =>
    intro st k h
    simpa [processFiles] using h
  | cons f fs ih =>
    intro st k h
    simp only [processFiles]
    split
    next st1 e1 heq =>
      have h1 := daily_keys_processFile L now tr st rec f k h
      rw [heq] at h1
      exact h1
    next st1 e1 heq =>
      have h1 := daily_keys_processFile L now tr st rec f k h
      rw [heq] at h1
      exact ih st1 k h1

theorem daily_keys_processRow (L : ℚ) (now : ℤ)
    (tr : String → Bool × Bool) (st : ProgressLog)
    (p : CsvRow × List Recording) (k : String)
    (h : k ∈ keysOf st.daily_completed_recordings) :
    k ∈ keysOf
      (processRow L now tr st p).1.daily_completed_recordings := by
  unfold processRow
  split
  · exact h
  · split
    · exact h
    · exact daily_keys_processFiles L now tr _ _ st k h

theorem daily_keys_processRows (L : ℚ) (now : ℤ)
    (tr : String → Bool × Bool) (rows : List (CsvRow × List Recording)) :
    ∀ (st : ProgressLog) (k : String),
      k ∈ keysOf st.daily_completed_recordings →
      k ∈ keysOf
        (processRows L now tr st rows).1.daily_completed_recordings := by
  induction rows with
  | nil =>
    intro st k h
    simpa [processRows] using h
  | cons p ps ih =>
    intro st k h
    simp only [processRows]
    split
    next st1 e1 heq =>
      have h1 := daily_keys_processRow L now tr st p k h
      rw [heq] at h1
      exact h1
    next st1 e1 heq =>
      have h1 := daily_keys_processRow L now tr st p k h
      rw [heq] at h1
      exact ih st1 k h1

/-- Claim C5: when the ledger's last-run date exists and is strictly
earlier than today (UTC), the startup rollover clears the same-day mapping
while leaving the all-time mapping (all its keys and values) untouched; and
the row-processing loop itself never clears the same-day mapping — at most
it adds keys — so the reset happens only at startup. -/
theorem day_rollover_clears_daily_only (st : ProgressLog) (d today now : ℤ)
    (h1 : get_last_run_date st = some d) (h2 : d < today) :
    (startupRollover today now st).1.daily_completed_recordings = [] ∧
    (startupRollover today now st).1.total_completed_recordings
      = st.total_completed_recordings ∧
    (∀ (L : ℚ) (tr : String → Bool × Bool) (st1 : ProgressLog)
        (rows : List (CsvRow × List Recording)) (k : String),
      k ∈ keysOf st1.daily_completed_recordings →
      k ∈ keysOf
        (processRows L now tr st1 rows).1.daily_completed_recordings) := by
  refine ⟨?_, ?_, fun L tr st1 rows k hk =>
    daily_keys_processRows L now tr rows st1 k hk⟩
  · simp [startupRollover, h1, h2, reset_batch_size, save]
  · simp [startupRollover, h1, h2, reset_batch_size, save]

/-- Witness for C5: a ledger last saved on day 0 with a nonempty same-day
mapping, rolled over on day 1; the loop keeps the key "k" present. -/
theorem day_rollover_clears_daily_only_witness :
    get_last_run_date ledgerOneDone = some 0 ∧ (0 : ℤ) < 1 ∧
    (startupRollover 1 5 ledgerOneDone).1.daily_completed_recordings = [] ∧
    (startupRollover 1 5 ledgerOneDone).1.total_completed_recordings
      = ledgerOneDone.total_completed_recordings ∧
    "f1" ∈ keysOf
      (processRows 500 5 alwaysOk ledgerOneDone
        []).1.daily_completed_recordings :=
  ⟨by decide, by decide,
    (day_rollover_clears_daily_only ledgerOneDone 0 1 5 (by decide)
      (by decide)).1,
    (day_rollover_clears_daily_only ledgerOneDone 0 1 5 (by decide)
      (by decide)).2.1,
    (day_rollover_clears_daily_only ledgerOneDone 0 1 5 (by decide)
      (by decide)).2.2 500 alwaysOk ledgerOneDone [] "f1" (by decide)⟩

theorem processFile_halt (L : ℚ) (now : ℤ) (tr : String → Bool × Bool)
    (st : ProgressLog) (rec : Recording) (f : RecordingFile)
    (h : (processFile L now tr st rec f).2.2 = true) :
    (processFile L now tr st rec f).2 = ([Event.halt], true) ∧
    (processFile L now tr st rec f).1 = st := by
  by_cases h1 : is_completed f.id st = true
  · simp [processFile, h1] at h
  · cases hf : rec.recording_files.find? (fun g => g.id == f.id) with
    | none => simp [processFile, h1, hf] at h
    | some fi =>
      by_cases h2 : would_exceed st (bytesToGb fi.file_size) L = true
      · constructor <;> simp [processFile, h1, hf, h2]
      · by_cases h3 : (tr f.id).1 = true <;>
          simp [processFile, h1, hf, h2, h3] at h

theorem processFiles_halt_suffix (L : ℚ) (now : ℤ)
    (tr : String → Bool × Bool) (rec : Recording)
    (fs : List RecordingFile) :
    ∀ st : ProgressLog, (processFiles L now tr rec st fs).2.2 = true →
      ∃ pre, (processFiles L now tr rec st fs).2.1 = pre ++ [Event.halt] := by
  induction fs with
  | nil =>
    intro st h
    simp [processFiles] at h
  | cons f fs ih =>
    intro st h
    rcases heq : processFile L now tr st rec f with ⟨st1, rest⟩
    rcases rest with ⟨e1, b⟩
    cases b
    · have hred :
          processFiles L now tr rec st (f :: fs)
            = ((processFiles L now tr rec st1 fs).1,
                e1 ++ (processFiles L now tr rec st1 fs).2.1,
                (processFiles L now tr rec st1 fs).2.2) := by
        simp only [processFiles, heq]
      rw [hred] at h ⊢
      obtain ⟨pre, hp⟩ := ih st1 h
      exact ⟨e1 ++ pre, by rw [hp, List.append_assoc]⟩
    · have hred : processFiles L now tr rec st (f :: fs) = (st1, e1, true) := by
        simp only [processFiles, heq]
      have he := processFile_halt L now tr st rec f (by rw [heq])
      rw [heq] at he
      have he1 : e1 = [Event.halt] := by
        have := he.1
        simp only [Prod.mk.injEq] at this
        exact this.1
      rw [hred, he1]
      exact ⟨[], rfl⟩

theorem processRow_halt_suffix (L : ℚ) (now : ℤ)
    (tr : String → Bool × Bool) (st : ProgressLog)
    (p : CsvRow × List Recording)
    (h : (processRow L now tr st p).2.2 = true) :
    ∃ pre, (processRow L now tr st p).2.1 = pre ++ [Event.halt] := by
  rcases hm : find_matching_recording p.1 p.2 with _ | rec
  · simp only [processRow, hm] at h
    simp at h
  · simp only [processRow, hm] at h ⊢
    by_cases he : rec.recording_files.isEmpty = true
    · simp [he] at h
    · simp only [Bool.not_eq_true] at he
      simp only [he] at h ⊢
      simp only [Bool.false_eq_true, if_false] at h ⊢
      exact processFiles_halt_suffix L now tr rec rec.recording_files st h

theorem processRows_halt_suffix (L : ℚ) (now : ℤ)
    (tr : String → Bool × Bool) (rows : List (CsvRow × List Recording)) :
    ∀ st : ProgressLog, (processRows L now tr st rows).2.2 = true →
      ∃ pre, (processRows L now tr st rows).2.1 = pre ++ [Event.halt] := by
  induction rows with
  | nil =>
    intro st h
    simp [processRows] at h
  | cons p ps ih =>
    intro st h
    rcases heq : processRow L now tr st p with ⟨st1, rest⟩
    rcases rest with ⟨e1, b⟩
    cases b
    · have hred :
          processRows L now tr st (p :: ps)
            = ((processRows L now tr st1 ps).1,
                e1 ++ (processRows L now tr st1 ps).2.1,
                (processRows L now tr st1 ps).2.2) := by
        simp only [processRows, heq]
      rw [hred] at h ⊢
      obtain ⟨pre, hp⟩ := ih st1 h
      exact ⟨e1 ++ pre, by rw [hp, List.append_assoc]⟩
    · have hred : processRows L now tr st (p :: ps) = (st1, e1, true) := by
        simp only [processRows, heq]
      have he := processRow_halt_suffix L now tr st p (by rw [heq])
      rw [heq] at he
      obtain ⟨pre, hp⟩ := he
      rw [hred]
      exact ⟨pre, hp⟩

/-- Claim C3: when budget admission fails, the orchestrator halts the run
at once — a halting row makes the remaining manifest rows unreachable (the
run over (r :: rest) equals the run over [r] alone) — and on that halt path
the event trace of the full run ends with the halt followed by exactly one
further ledger persist (the final save) and nothing else. -/
theorem budget_halt_stops_run :
    (∀ (L : ℚ) (now : ℤ) (tr : String → Bool × Bool) (st : ProgressLog)
        (r : CsvRow × List Recording)
        (rest : List (CsvRow × List Recording)),
      (processRow L now tr st r).2.2 = true →
      processRows L now tr st (r :: rest) = processRows L now tr st [r]) ∧
    (∀ (today now : ℤ) (L : ℚ) (tr : String → Bool × Bool)
        (st : ProgressLog) (rows : List (CsvRow × List Recording)),
      (processRows L now tr (startupRollover today now st).1 rows).2.2
        = true →
      ∃ pre, (mainRun today now L tr st rows).2
        = pre ++ [Event.halt, Event.save]) := by
  constructor
  · intro L now tr st r rest h
    rcases heq : processRow L now tr st r with ⟨st1, rest1⟩
    rcases rest1 with ⟨e1, b⟩
    rw [heq] at h
    simp only at h
    subst h
    simp only [processRows, heq]
  · intro today now L tr st rows h
    obtain ⟨pre, hp⟩ := processRows_halt_suffix L now tr rows _ h
    refine ⟨(startupRollover today now st).2 ++ pre, ?_⟩
    have : (mainRun today now L tr st rows).2
        = (startupRollover today now st).2
          ++ (processRows L now tr (startupRollover today now st).1 rows).2.1
          ++ [Event.save] := rfl
    rw [this, hp]
    simp [List.append_assoc]

/-- Witness for C3: the empty ledger with a zero budget and a matching row
holding one 1 GB file halts at its first file; the remaining row is not
processed and the trace ends with the halt and the single final save. -/
theorem budget_halt_stops_run_witness :
    (processRow 0 0 alwaysOk create_new_log
        (rowForOneFile, [oneFileRecording])).2.2 = true ∧
    processRows 0 0 alwaysOk create_new_log
        [(rowForOneFile, [oneFileRecording]),
          (rowForOneFile, [oneFileRecording])]
      = processRows 0 0 alwaysOk create_new_log
          [(rowForOneFile, [oneFileRecording])] ∧
    (processRows 0 0 alwaysOk (startupRollover 0 0 create_new_log).1
        [(rowForOneFile, [oneFileRecording])]).2.2 = true ∧
    ∃ pre, (mainRun 0 0 0 alwaysOk create_new_log
        [(rowForOneFile, [oneFileRecording])]).2
      = pre ++ [Event.halt, Event.save] := by
  have h1 : (processRow 0 0 alwaysOk create_new_log
      (rowForOneFile, [oneFileRecording])).2.2 = true := by
    norm_num [processRow, find_matching_recording, rowForOneFile,
      oneFileRecording, normalize_topic, findLoop, fiveMinutes, processFiles,
      processFile, is_completed, create_new_log, oneGbFile, would_exceed,
      get_batch_size, sumValues, bytesToGb, alwaysOk, List.find?]
  have h2 : (processRows 0 0 alwaysOk
      (startupRollover 0 0 create_new_log).1
      [(rowForOneFile, [oneFileRecording])]).2.2 = true := by
    norm_num [startupRollover, get_last_run_date, create_new_log,
      processRows, processRow, find_matching_recording, rowForOneFile,
      oneFileRecording, normalize_topic, findLoop, fiveMinutes, processFiles,
      processFile, is_completed, oneGbFile, would_exceed, get_batch_size,
      sumValues, bytesToGb, alwaysOk, List.find?]
  exact ⟨h1, budget_halt_stops_run.1 0 0 alwaysOk create_new_log _ _ h1, h2,
    budget_halt_stops_run.2 0 0 0 alwaysOk create_new_log _ h2⟩

theorem processFile_of_completed (L : ℚ) (now : ℤ)
    (tr : String → Bool × Bool) (st : ProgressLog) (rec : Recording)
    (f : RecordingFile) (h : is_completed f.id st = true) :
    processFile L now tr st rec f = (st, [], false) := by
  simp [processFile, h]

theorem processFiles_of_all_completed (L : ℚ) (now : ℤ)
    (tr : String → Bool × Bool) (rec : Recording)
    (fs : List RecordingFile) :
    ∀ st : ProgressLog, (∀ f ∈ fs, is_completed f.id st = true) →
      processFiles L now tr rec st fs = (st, [], false) := by
  induction fs with
  | nil =>
    intro st _
    rfl
  | cons f fs ih =>
    intro st h
    have h1 := processFile_of_completed L now tr st rec f
      (h f (List.mem_cons_self f fs))
    have h2 := ih st fun g hg => h g (List.mem_cons_of_mem f hg)
    simp only [processFiles, h1, h2]
    rfl

theorem processRows_of_enumerated (L : ℚ) (now : ℤ)
    (tr : String → Bool × Bool) (rows : List (CsvRow × List Recording)) :
    ∀ st : ProgressLog, enumerated_complete st rows = true →
      processRows L now tr st rows = (st, [], false) := by
  induction rows with
  | nil =>
    intro st _
    rfl
  | cons p ps ih =>
    intro st h
    rw [enumerated_complete, List.all_cons, Bool.and_eq_true] at h
    obtain ⟨hp, hps⟩ := h
    have hrow : processRow L now tr st p = (st, [], false) := by
      rcases hm : find_matching_recording p.1 p.2 with _ | rec
      · simp [processRow, hm]
      · rw [hm] at hp
        simp only [List.all_eq_true] at hp
        by_cases he : rec.recording_files.isEmpty = true
        · simp [processRow, hm, he]
        · simp only [Bool.not_eq_true] at he
          simp [processRow, hm, he,
            processFiles_of_all_completed L now tr rec rec.recording_files
              st hp]
    have hps' : enumerated_complete st ps = true := hps
    simp only [processRows, hrow, ih st hps']
    rfl

/-- Claim C7: re-running the migration over a manifest every one of whose
enumerated files the ledger already marks complete performs zero transfers
— the row loop emits no events at all and returns the ledger unchanged —
and the full run only re-stamps the final save, leaving both mappings of
the ledger unchanged. -/
theorem rerun_is_noop (today now : ℤ) (L : ℚ)
    (tr : String → Bool × Bool) (st : ProgressLog)
    (rows : List (CsvRow × List Recording))
    (h : enumerated_complete st rows = true)
    (hroll : startupRollover today now st = (st, [])) :
    processRows L now tr st rows = (st, [], false) ∧
    mainRun today now L tr st rows = (save now st, [Event.save]) ∧
    (save now st).total_completed_recordings
      = st.total_completed_recordings ∧
    (save now st).daily_completed_recordings
      = st.daily_completed_recordings := by
  have h1 := processRows_of_enumerated L now tr rows st h
  refine ⟨h1, ?_, rfl, rfl⟩
  simp only [mainRun, hroll, h1]
  rfl

/-- Witness for C7: a ledger marking "f1" complete, a manifest row matching
the one-file recording holding exactly "f1", and a same-day re-run. -/
theorem rerun_is_noop_witness :
    enumerated_complete ledgerOneDone
        [(rowForOneFile, [oneFileRecording])] = true ∧
    startupRollover 0 7 ledgerOneDone = (ledgerOneDone, []) ∧
    (processRows 500 7 alwaysOk ledgerOneDone
        [(rowForOneFile, [oneFileRecording])]
      = (ledgerOneDone, [], false) ∧
    mainRun 0 7 500 alwaysOk ledgerOneDone
        [(rowForOneFile, [oneFileRecording])]
      = (save 7 ledgerOneDone, [Event.save]) ∧
    (save 7 ledgerOneDone).total_completed_recordings
      = ledgerOneDone.total_completed_recordings ∧
    (save 7 ledgerOneDone).daily_completed_recordings
      = ledgerOneDone.daily_completed_recordings) := by
  have hc : enumerated_complete ledgerOneDone
      [(rowForOneFile, [oneFileRecording])] = true := by decide
  have hr : startupRollover 0 7 ledgerOneDone = (ledgerOneDone, []) := rfl
  exact ⟨hc, hr, rerun_is_noop 0 7 500 alwaysOk ledgerOneDone _ hc hr⟩

/-- Claim C4: budget admission rejects a candidate iff the current-day
usage plus the candidate size strictly exceeds the daily limit — both for
the `would_exceed` test itself and for the halt decision inside the
per-file loop — and concretely, with a 500 GB limit and 499 GB used today,
a 2 GB candidate is rejected while a 1 GB candidate is admitted. -/
theorem budget_admission_iff :
    (∀ (st : ProgressLog) (c L : ℚ),
      would_exceed st c L = true ↔ get_batch_size st + c > L) ∧
    (∀ (L : ℚ) (now : ℤ) (tr : String → Bool × Bool) (st : ProgressLog)
        (rec : Recording) (f fi : RecordingFile),
      is_completed f.id st = false →
      rec.recording_files.find? (fun g => g.id == f.id) = some fi →
      ((processFile L now tr st rec f).2.2 = true ↔
        get_batch_size st + bytesToGb fi.file_size > L)) ∧
    would_exceed ledger499 2 500 = true ∧
    would_exceed ledger499 1 500 = false := by
  refine ⟨fun st c L => by simp [would_exceed], ?_, ?_, ?_⟩
  · intro L now tr st rec f fi h hf
    simp only [processFile, h, Bool.false_eq_true, if_false, hf]
    by_cases h2 : would_exceed st (bytesToGb fi.file_size) L = true
    · have hgt : get_batch_size st + bytesToGb fi.file_size > L := by
        simpa [would_exceed] using h2
      simp [h2, hgt]
    · have hng : ¬ get_batch_size st + bytesToGb fi.file_size > L := by
        simpa [would_exceed] using h2
      simp only [Bool.not_eq_true] at h2
      by_cases h3 : (tr f.id).1 = true <;> simp [h2, h3, hng]
  · norm_num [would_exceed, get_batch_size, sumValues, ledger499,
      create_new_log]
  · norm_num [would_exceed, get_batch_size, sumValues, ledger499,
      create_new_log]

/-- Witness for C4: on the 499 GB ledger, the per-file loop rejects the
not-yet-complete 2 GB file "g" under the 500 GB limit. -/
theorem budget_admission_iff_witness :
    is_completed "g" ledger499 = false ∧
    twoGbRecording.recording_files.find? (fun g => g.id == "g")
      = some twoGbFile ∧
    (processFile 500 0 alwaysOk ledger499 twoGbRecording twoGbFile).2.2
      = true := by
  refine ⟨by decide, by decide, ?_⟩
  refine (budget_admission_iff.2.1 500 0 alwaysOk ledger499 twoGbRecording
    twoGbFile twoGbFile (by decide) (by decide)).mpr ?_
  norm_num [get_batch_size, sumValues, ledger499, bytesToGb, twoGbFile]

/-- Claim C6: for a row whose UTC start time parsed, the matcher returns
the first candidate in iteration order whose topic equals the row's
normalized topic and whose start time is strictly within 5 minutes (none
when no candidate qualifies); concretely, topic "'-Weekly Sync" normalizes
to "-Weekly Sync", a candidate 3 minutes away matches and a candidate 10
minutes away does not. -/
theorem matcher_first_match (row : CsvRow) (t : ℤ) (cands : List Recording)
    (h : row.start_time_utc = some t) :
    find_matching_recording row cands = cands.find? (claimMatches row t) ∧
    find_matching_recording rowWeekly [candNear] = some candNear ∧
    find_matching_recording rowWeekly [candFar] = none := by
  refine ⟨?_, by decide, by decide⟩
  simp only [find_matching_recording, h]
  induction cands with
  | nil => rfl
  | cons r rest ih =>
    by_cases hc : some r.topic = normalize_topic row.topic ∧
        |t - r.start_time| < fiveMinutes
    · have hb : claimMatches row t r = true := by
        simp only [claimMatches, Bool.and_eq_true, beq_iff_eq,
          decide_eq_true_eq]
        exact ⟨hc.1.symm, hc.2⟩
      rw [findLoop, if_pos hc, List.find?_cons_of_pos _ hb]
    · have hb : ¬ claimMatches row t r = true := by
        simp only [claimMatches, Bool.and_eq_true, beq_iff_eq,
          decide_eq_true_eq]
        intro hcm
        exact hc ⟨hcm.1.symm, hcm.2⟩
      rw [findLoop, if_neg hc, List.find?_cons_of_neg _ hb]
      exact ih

/-- Witness for C6: the refinement applied to the weekly-sync row over both
example candidates. -/
theorem matcher_first_match_witness :
    rowWeekly.start_time_utc = some 0 ∧
    find_matching_recording rowWeekly [candNear, candFar]
      = [candNear, candFar].find? (claimMatches rowWeekly 0) :=
  ⟨rfl, (matcher_first_match rowWeekly 0 [candNear, candFar] rfl).1⟩

/-- Claim C10: when the row's UTC start time is missing, the matcher
returns none for every candidate list, without examining any candidate. -/
theorem matcher_missing_start_time (row : CsvRow)
    (cands : List Recording) (h : row.start_time_utc = none) :
    find_matching_recording row cands = none := by
  simp only [find_matching_recording, h]

/-- Witness for C10: a row with no parsed start time fails to match even a
candidate whose topic equals the row's topic exactly. -/
theorem matcher_missing_start_time_witness :
    rowNoTime.start_time_utc = none ∧
    candSameTopic.topic = "-Weekly Sync" ∧
    rowNoTime.topic = some "-Weekly Sync" ∧
    find_matching_recording rowNoTime [candSameTopic] = none :=
  ⟨rfl, rfl, rfl, matcher_missing_start_time rowNoTime [candSameTopic] rfl⟩

/-- Claim C8: every verification row gets exactly one status — the error
tag with the failure detail on an exception, otherwise NO_MATCH_ON_ZOOM when
no session matched, otherwise NO_FILES_ON_ZOOM when the matched session has
zero provider files, otherwise COMPLETE exactly when every provider file is
found at the destination (found-count equals file count), and INCOMPLETE
exactly when not all are found; the reported counts are the provider file
count and the found count. -/
theorem verification_classification (found : RecordingFile → Bool)
    (e : String) (rec : Recording) :
    verify_row (Except.error e) found
      = (VerificationStatus.ERROR e, -1, -1) ∧
    verify_row (Except.ok none) found
      = (VerificationStatus.NO_MATCH_ON_ZOOM, 0, 0) ∧
    (verify_row (Except.ok (some rec)) found).2
      = ((rec.recording_files.length : ℤ),
          (rec.recording_files.countP (fun f => found f) : ℤ)) ∧
    ((verify_row (Except.ok (some rec)) found).1
        = VerificationStatus.NO_FILES_ON_ZOOM
      ↔ rec.recording_files = []) ∧
    ((verify_row (Except.ok (some rec)) found).1
        = VerificationStatus.COMPLETE
      ↔ rec.recording_files ≠ [] ∧
          ∀ f ∈ rec.recording_files, found f = true) ∧
    ((verify_row (Except.ok (some rec)) found).1
        = VerificationStatus.INCOMPLETE
      ↔ rec.recording_files ≠ [] ∧
          ¬ ∀ f ∈ rec.recording_files, found f = true) := by
  refine ⟨rfl, rfl, ?_, ?_, ?_, ?_⟩
  · simp only [verify_row]
    split_ifs <;> rfl
  · simp only [verify_row]
    by_cases hz : rec.recording_files.length = 0
    · rw [if_pos hz]
      simp [List.length_eq_zero.mp hz]
    · rw [if_neg hz]
      have hne : rec.recording_files ≠ [] := fun he => hz (by simp [he])
      by_cases hdc : rec.recording_files.length
          = rec.recording_files.countP (fun f => found f)
      · rw [if_pos hdc]
        simp [hne]
      · rw [if_neg hdc]
        simp [hne]
  · simp only [verify_row]
    by_cases hz : rec.recording_files.length = 0
    · rw [if_pos hz]
      simp [List.length_eq_zero.mp hz]
    · rw [if_neg hz]
      have hne : rec.recording_files ≠ [] := fun he => hz (by simp [he])
      by_cases hdc : rec.recording_files.length
          = rec.recording_files.countP (fun f => found f)
      · rw [if_pos hdc]
        have hall : ∀ f ∈ rec.recording_files, found f = true :=
          List.countP_eq_length.mp hdc.symm
        simp only [ne_eq, hne, not_false_iff, true_and]
        constructor
        · intro _
          exact hall
        · intro _
          trivial
      · rw [if_neg hdc]
        have hnall : ¬ ∀ f ∈ rec.recording_files, found f = true :=
          fun hall => hdc (List.countP_eq_length.mpr hall).symm
        simp only [ne_eq, hne, not_false_iff, true_and]
        constructor
        · intro hco
          exact absurd hco (by simp)
        · intro hall
          exact absurd hall hnall
  · simp only [verify_row]
    by_cases hz : rec.recording_files.length = 0
    · rw [if_pos hz]
      simp [List.length_eq_zero.mp hz]
    · rw [if_neg hz]
      have hne : rec.recording_files ≠ [] := fun he => hz (by simp [he])
      by_cases hdc : rec.recording_files.length
          = rec.recording_files.countP (fun f => found f)
      · rw [if_pos hdc]
        have hall : ∀ f ∈ rec.recording_files, found f = true :=
          List.countP_eq_length.mp hdc.symm
        simp only [ne_eq, hne, not_false_iff, true_and]
        constructor
        · intro hco
          exact absurd hco (by simp)
        · intro hn
          exact absurd hall hn
      · rw [if_neg hdc]
        have hnall : ¬ ∀ f ∈ rec.recording_files, found f = true :=
          fun hall => hdc (List.countP_eq_length.mpr hall).symm
        simp only [ne_eq, hne, not_false_iff, true_and]
        constructor
        · intro _
          exact hnall
        · intro _
          trivial

/-- Claim C1 (refuted by the code): on a fresh ledger, within budget, when
the download of file "f1" succeeds but the Google Drive upload fails, the
per-file step still calls `log_completed` and marks "f1" complete — the
upload outcome is used only for local cleanup — so a file whose upload
failed is never retried, contradicting the claim that `recordComplete` runs
only after the full transfer chain has succeeded. -/
theorem upload_failure_still_recorded_complete :
    (downloadOkUploadFails "f1").1 = true ∧
    (downloadOkUploadFails "f1").2 = false ∧
    is_completed "f1"
        (processFile 500 0 downloadOkUploadFails create_new_log
          oneFileRecording oneGbFile).1 = true ∧
    (processFile 500 0 downloadOkUploadFails create_new_log oneFileRecording
        oneGbFile).2
      = ([Event.download "f1", Event.upload "f1" false, Event.save],
          false) := by
  refine ⟨rfl, rfl, ?_, ?_⟩ <;>
    norm_num [processFile, is_completed, create_new_log, oneFileRecording,
      oneGbFile, would_exceed, get_batch_size, sumValues, bytesToGb,
      downloadOkUploadFails, List.find?, log_completed, save, dictInsert]

end ZoomMigration
